import Mathlib

/-!
Verification of the bunnydo messaging client (src/index.js) against its
specification.  The JavaScript source is shallowly embedded: JS values are an
inductive type, the message codec (toAMQPMessage / fromAMQPMessage) is
translated function by function, and the stateful pattern operations (worker,
rpc, pubsub, the correlation table and the queue/exchange caches) become pure
state transformers over an explicit client state together with a trace of
channel effects.  The external collaborators (the amqplib channel, the JSON
built-ins and the uuid generator) are modelled by their documented contracts:
channel operations succeed while the channel is open and fail (publishes by a
synchronous throw, asserted operations by a rejected promise) when it is
closed; JSON.stringify / JSON.parse are given concrete executable models over
the embedded value type (numbers restricted to integers, since floating point
is outside the embedding); uuid() is a counter producing fresh opaque tokens.
-/

namespace Bunnydo

/-- Buffer contents are modelled by the character sequence they encode; the
byte-level UTF-8 encoding step of `new Buffer(string)` and its inverse
`buf.toString()` are elided, since every operation in the source treats the
payload as text. -/
abbrev Bytes := List Char

/-- Synchronous JavaScript exceptions that the modelled code can raise:
`typeError` for property access / method calls on null or undefined, and
`channelClosed` for amqplib operations invoked on a closed channel. -/
inductive JSErr where
  | typeError
  | channelClosed
deriving Repr, DecidableEq

/-- JavaScript values as far as the source manipulates them: undefined, null,
booleans, numbers (restricted to integers), strings, Buffers and plain
objects/arrays of such values. -/
inductive JSValue where
  | vUndef
  | vNull
  | vBool (b : Bool)
  | vNum (n : Int)
  | vStr (s : List Char)
  | vBuf (bytes : Bytes)
  | vObj (fields : List (List Char × JSValue))
  | vArr (elems : List JSValue)
deriving Repr, Inhabited

open JSValue

/-- Result of the JS `typeof` operator on an embedded value.  Note that
`typeof null` is "object" and `typeof buffer` is "object". -/
def typeofJS : JSValue → String
  | vUndef => "undefined"
  | vNull => "object"
  | vBool _ => "boolean"
  | vNum _ => "number"
  | vStr _ => "string"
  | vBuf _ => "object"
  | vObj _ => "object"
  | vArr _ => "object"

/-- Model of `Buffer.isBuffer`. -/
def isBuffer : JSValue → Bool
  | vBuf _ => true
  | _ => false

/-- Decimal digit character for a value below ten (written out so that its
facts are immediate without lemmas about `Char.ofNat`). -/
def digitChar (n : Nat) : Char :=
  if n = 0 then '0' else if n = 1 then '1' else if n = 2 then '2'
  else if n = 3 then '3' else if n = 4 then '4' else if n = 5 then '5'
  else if n = 6 then '6' else if n = 7 then '7' else if n = 8 then '8'
  else '9'

/-- Decimal representation of a natural number, most significant digit first,
as produced by JS Number.prototype.toString for nonnegative integers. -/
def natChars (n : Nat) : List Char :=
  if _h : n < 10 then [digitChar n]
  else natChars (n / 10) ++ [digitChar (n % 10)]
decreasing_by exact Nat.div_lt_self (by omega) (by omega)

/-- Decimal representation of an integer, as produced by JS for integral
numbers. -/
def intChars (n : Int) : List Char :=
  if n < 0 then '-' :: natChars n.natAbs else natChars n.toNat

/-- Index-keyed fields of a Buffer viewed as a plain object: position `i`
onward, each byte under its decimal index string (`Object.keys` enumeration
of a Buffer). -/
def bufObjFields (i : Nat) : Bytes → List (List Char × JSValue)
  | [] => []
  | b :: rest => (natChars i, vNum (b.toNat : Int)) :: bufObjFields (i + 1) rest

/-- Index-keyed fields of an array viewed as a plain object (`Object.keys`
enumeration of an array). -/
def idxFields (i : Nat) : List JSValue → List (List Char × JSValue)
  | [] => []
  | v :: rest => (natChars i, v) :: idxFields (i + 1) rest

/-- Model of `copy` (src/index.js lines 7-20): for a value whose `typeof` is
"object", allocate a fresh plain object and copy every own enumerable key of
the source into it; otherwise return the value itself.  Consequences that are
faithful to JS semantics: `copy(null)` throws a TypeError (`Object.keys(null)`
throws); a Buffer is flattened into a plain object mapping its index strings
to its byte values (Buffer indices are own enumerable properties); an array is
likewise flattened into a plain index-keyed object; a plain object is copied
shallowly, which preserves its key/value list. -/
def copy (src : JSValue) : Except JSErr JSValue :=
  match src with
  | vNull => .error .typeError
  | vBuf bytes => .ok (vObj (bufObjFields 0 bytes))
  | vArr elems => .ok (vObj (idxFields 0 elems))
  | vObj fields => .ok (vObj fields)
  | v => .ok v

/- JSON serializer: model of JSON.stringify restricted to the embedded value
space.  Undefined-valued object fields are omitted, undefined array elements
serialize as null, and a Buffer (having no toJSON in the modelled era)
serializes like the plain index-keyed object of its bytes.  Object fields are
emitted in property enumeration order, which the embedding identifies with
the stored list order. -/

/-- Lowercase hexadecimal digit character. -/
def hexDigitChar (n : Nat) : Char :=
  if n = 0 then '0' else if n = 1 then '1' else if n = 2 then '2'
  else if n = 3 then '3' else if n = 4 then '4' else if n = 5 then '5'
  else if n = 6 then '6' else if n = 7 then '7' else if n = 8 then '8'
  else if n = 9 then '9' else if n = 10 then 'a' else if n = 11 then 'b'
  else if n = 12 then 'c' else if n = 13 then 'd' else if n = 14 then 'e'
  else 'f'

/-- JSON escape of a single character, as emitted by JSON.stringify: the
quote and backslash get two-character escapes, the common control characters
get their short escapes, any other control character becomes a `\u00XX`
escape, and everything else is emitted literally. -/
def escChar (c : Char) : List Char :=
  if c = '"' then ['\\', '"']
  else if c = '\\' then ['\\', '\\']
  else if c = '\x08' then ['\\', 'b']
  else if c = '\x09' then ['\\', 't']
  else if c = '\x0a' then ['\\', 'n']
  else if c = '\x0c' then ['\\', 'f']
  else if c = '\x0d' then ['\\', 'r']
  else if c.toNat < 32 then
    ['\\', 'u', '0', '0', hexDigitChar (c.toNat / 16), hexDigitChar (c.toNat % 16)]
  else [c]

/-- Serialized body of a JSON string: the escaped characters followed by the
closing quote. -/
def serStrBody : List Char → List Char
  | [] => ['"']
  | c :: cs => escChar c ++ serStrBody cs

/-- Serialized JSON string, opening quote included. -/
def serStr (s : List Char) : List Char := '"' :: serStrBody s

/-- Index-keyed number fields of a Buffer, as enumerated for its
serialization. -/
def bufNumFields (i : Nat) : Bytes → List (List Char × Int)
  | [] => []
  | b :: rest => (natChars i, (b.toNat : Int)) :: bufNumFields (i + 1) rest

/-- Buffer-object members after the first, each preceded by a comma. -/
def serBufMembersTail : List (List Char × Int) → List Char
  | [] => ['\x7d']
  | (k, n) :: rest => ',' :: serStr k ++ ':' :: intChars n ++ serBufMembersTail rest

/-- Members of the index-keyed object a Buffer presents to JSON.stringify
(number-valued, so serializable without recursion into the value grammar). -/
def serBufMembers : List (List Char × Int) → List Char
  | [] => ['\x7d']
  | (k, n) :: rest => serStr k ++ ':' :: intChars n ++ serBufMembersTail rest

mutual

/-- Serialized JSON text of a value (the output of JSON.stringify on values
for which stringify returns a string). -/
def serVal : JSValue → List Char
  | vUndef => 'n' :: 'u' :: 'l' :: 'l' :: []
  | vNull => 'n' :: 'u' :: 'l' :: 'l' :: []
  | vBool true => 't' :: 'r' :: 'u' :: 'e' :: []
  | vBool false => 'f' :: 'a' :: 'l' :: 's' :: 'e' :: []
  | vNum n => intChars n
  | vStr s => serStr s
  | vBuf bytes => '\x7b' :: serBufMembers (bufNumFields 0 bytes)
  | vObj fields => '\x7b' :: serMembers fields
  | vArr elems => '[' :: serElems elems

/-- Members of an object, comma separated, closing brace included;
undefined-valued fields are omitted as JSON.stringify does. -/
def serMembers : List (List Char × JSValue) → List Char
  | [] => ['\x7d']
  | (_, vUndef) :: rest => serMembers rest
  | (k, v) :: rest => serStr k ++ ':' :: serVal v ++ serMembersTail rest

/-- Members after the first, each preceded by a comma. -/
def serMembersTail : List (List Char × JSValue) → List Char
  | [] => ['\x7d']
  | (_, vUndef) :: rest => serMembersTail rest
  | (k, v) :: rest => ',' :: serStr k ++ ':' :: serVal v ++ serMembersTail rest

/-- Elements of an array, comma separated, closing bracket included. -/
def serElems : List JSValue → List Char
  | [] => [']']
  | v :: rest => serVal v ++ serElemsTail rest

/-- Array elements after the first, each preceded by a comma. -/
def serElemsTail : List JSValue → List Char
  | [] => [']']
  | v :: rest => ',' :: serVal v ++ serElemsTail rest

end

/-- Model of JSON.stringify as used by the source: it returns a string for
every embedded value except undefined (where it returns undefined, modelled
as `none`).  Stringify failure (only possible in JS on circular structures,
which the inductive value space cannot express) therefore does not occur. -/
def jsonStringify (v : JSValue) : Option (List Char) :=
  match v with
  | vUndef => none
  | _ => some (serVal v)

/-- Model of the textual coercion `c.toString()` applied by toAMQPMessage to
non-string, non-object leftovers: throws on undefined and null, renders
numbers and booleans, is the identity on strings, and renders plain objects
as "[object Object]".  Arrays and Buffers cannot reach this call in the
source (copy has already flattened them to plain objects). -/
def jsToString : JSValue → Except JSErr Bytes
  | vUndef => .error .typeError
  | vNull => .error .typeError
  | vBool true => .ok ('t' :: 'r' :: 'u' :: 'e' :: [])
  | vBool false => .ok ('f' :: 'a' :: 'l' :: 's' :: 'e' :: [])
  | vNum n => .ok (intChars n)
  | vStr s => .ok s
  | vBuf bytes => .ok bytes
  | vObj _ => .ok ("[object Object]".data)
  | vArr _ => .ok ("[object Object]".data)

/-- Model of `Bunnydo.prototype.toAMQPMessage` (src/index.js lines 205-225):
first `copy` the input (which throws on null and flattens Buffers and arrays
into plain objects), then, when the result's typeof is "object" and it is not
a Buffer, try JSON.stringify (keeping the value on failure); finally a
non-string value is coerced with toString, and the resulting string becomes
the Buffer payload.  Because `copy` runs first, the `!Buffer.isBuffer(c)`
test can never see a Buffer: a Buffer input has already been flattened into a
plain object by the time the test runs. -/
def toAMQPMessage (message : JSValue) : Except JSErr Bytes := do
  let c ← copy message
  let c := if typeofJS c = "object" ∧ isBuffer c = false then
      match jsonStringify c with
      | some s => vStr s
      | none => c
    else c
  match c with
  | vStr s => .ok s
  | c => jsToString c

/- JSON parser: an executable model of JSON.parse over the embedded value
space.  It is a fuel-indexed recursive descent parser; `jsonParse` runs it
with fuel `length + 1`, which suffices because each unit of fuel is spent
only after at least one character has been consumed.  Restrictions of the
model, none of which any claim depends on: numbers are integer literals
(no fractions or exponents, since floating point is outside the embedding),
leading zeros are tolerated, and duplicate object keys are kept in order
rather than last-wins. -/

/-- True for the four JSON whitespace characters. -/
def isWs (c : Char) : Bool := c = ' ' ∨ c = '\x09' ∨ c = '\x0a' ∨ c = '\x0d'

/-- Drop leading JSON whitespace. -/
def skipWs : List Char → List Char
  | [] => []
  | c :: rest => if isWs c then skipWs rest else c :: rest

/-- Numeric value of a decimal digit character. -/
def digitVal (c : Char) : Nat := c.toNat - 48

/-- Accumulate decimal digits, stopping at the first non-digit. -/
def parseDigitsAux (acc : Nat) : List Char → Nat × List Char
  | [] => (acc, [])
  | c :: rest => if c.isDigit then parseDigitsAux (acc * 10 + digitVal c) rest
      else (acc, c :: rest)

/-- Parse a nonempty run of decimal digits. -/
def parseNum (cs : List Char) : Option (Nat × List Char) :=
  match cs with
  | [] => none
  | c :: _ => if c.isDigit then some (parseDigitsAux 0 cs) else none

/-- Numeric value of a hexadecimal digit character, if it is one. -/
def hexVal (c : Char) : Option Nat :=
  if c.isDigit then some (digitVal c)
  else if 'a' ≤ c ∧ c ≤ 'f' then some (c.toNat - 87)
  else if 'A' ≤ c ∧ c ≤ 'F' then some (c.toNat - 55)
  else none

/-- Parse the body of a JSON string (the opening quote already consumed),
returning the unescaped characters and the input after the closing quote. -/
def parseStrBody (cs : List Char) : Option (List Char × List Char) :=
  match cs with
  | [] => none
  | c :: rest =>
    if c = '"' then some ([], rest)
    else if c = '\\' then
      match rest with
      | [] => none
      | e :: rest2 =>
        if e = '"' ∨ e = '\\' ∨ e = '/' then
          (parseStrBody rest2).map (fun p => (e :: p.1, p.2))
        else if e = 'b' then (parseStrBody rest2).map (fun p => ('\x08' :: p.1, p.2))
        else if e = 't' then (parseStrBody rest2).map (fun p => ('\x09' :: p.1, p.2))
        else if e = 'n' then (parseStrBody rest2).map (fun p => ('\x0a' :: p.1, p.2))
        else if e = 'f' then (parseStrBody rest2).map (fun p => ('\x0c' :: p.1, p.2))
        else if e = 'r' then (parseStrBody rest2).map (fun p => ('\x0d' :: p.1, p.2))
        else if e = 'u' then
          match rest2 with
          | h1 :: h2 :: h3 :: h4 :: rest3 =>
            match hexVal h1, hexVal h2, hexVal h3, hexVal h4 with
            | some v1, some v2, some v3, some v4 =>
              (parseStrBody rest3).map
                (fun p => (Char.ofNat (((v1 * 16 + v2) * 16 + v3) * 16 + v4) :: p.1, p.2))
            | _, _, _, _ => none
          | _ => none
        else none
    else if c.toNat < 32 then none
    else (parseStrBody rest).map (fun p => (c :: p.1, p.2))
termination_by cs.length
decreasing_by all_goals simp_all <;> omega

/-- Match an expected literal sequence at the head of the input. -/
def stripPre (pre cs : List Char) : Option (List Char) :=
  match pre, cs with
  | [], rest => some rest
  | p :: ps, c :: rest => if c = p then stripPre ps rest else none
  | _ :: _, [] => none

mutual

/-- Parse one JSON value (fuel-indexed). -/
def parseValue : Nat → List Char → Option (JSValue × List Char)
  | 0, _ => none
  | fuel + 1, cs0 =>
    match skipWs cs0 with
    | [] => none
    | c :: rest =>
      if c = 'n' then (stripPre ('u' :: 'l' :: 'l' :: []) rest).map (fun r => (vNull, r))
      else if c = 't' then (stripPre ('r' :: 'u' :: 'e' :: []) rest).map
          (fun r => (vBool true, r))
      else if c = 'f' then (stripPre ('a' :: 'l' :: 's' :: 'e' :: []) rest).map
          (fun r => (vBool false, r))
      else if c = '"' then (parseStrBody rest).map (fun p => (vStr p.1, p.2))
      else if c = '-' then (parseNum rest).map (fun p => (vNum (-(p.1 : Int)), p.2))
      else if c = '\x7b' then
        match skipWs rest with
        | '\x7d' :: rest2 => some (vObj [], rest2)
        | rest1 => (parseMembers fuel rest1).map (fun p => (vObj p.1, p.2))
      else if c = '[' then
        match skipWs rest with
        | ']' :: rest2 => some (vArr [], rest2)
        | rest1 => (parseElems fuel rest1).map (fun p => (vArr p.1, p.2))
      else if c.isDigit then (parseNum (c :: rest)).map (fun p => (vNum (p.1 : Int), p.2))
      else none

/-- Parse one or more object members and the closing brace (fuel-indexed). -/
def parseMembers : Nat → List Char → Option (List (List Char × JSValue) × List Char)
  | 0, _ => none
  | fuel + 1, cs =>
    match skipWs cs with
    | '"' :: rest =>
      match parseStrBody rest with
      | none => none
      | some (key, cs2) =>
        match skipWs cs2 with
        | ':' :: cs3 =>
          match parseValue fuel cs3 with
          | none => none
          | some (v, cs4) =>
            match skipWs cs4 with
            | ',' :: cs5 => (parseMembers fuel cs5).map (fun p => ((key, v) :: p.1, p.2))
            | '\x7d' :: cs5 => some ([(key, v)], cs5)
            | _ => none
        | _ => none
    | _ => none

/-- Parse one or more array elements and the closing bracket (fuel-indexed). -/
def parseElems : Nat → List Char → Option (List JSValue × List Char)
  | 0, _ => none
  | fuel + 1, cs =>
    match parseValue fuel cs with
    | none => none
    | some (v, cs2) =>
      match skipWs cs2 with
      | ',' :: cs3 => (parseElems fuel cs3).map (fun p => (v :: p.1, p.2))
      | ']' :: cs3 => some ([v], cs3)
      | _ => none

end

/-- Model of JSON.parse: run the value parser with ample fuel and require
that only whitespace remains. -/
def jsonParse (text : Bytes) : Option JSValue :=
  match parseValue (text.length + 1) text with
  | some (v, rest) => if skipWs rest = [] then some v else none
  | none => none

/-- Message properties carried by an AMQP delivery; absent string properties
are modelled by the empty string, which is falsy exactly like the `undefined`
amqplib stores there. -/
structure MsgProps where
  correlationId : String := ""
  replyTo : String := ""
deriving Repr, DecidableEq

/-- Delivery fields of an AMQP message (only the ones the source reads). -/
structure MsgFields where
  routingKey : String := ""
  exchange : String := ""
deriving Repr, DecidableEq

/-- Wire message as delivered by the channel: routing fields, an optional
properties object (the source guards `msg.properties` in rpcHandler), and an
optional payload Buffer. -/
structure AMQPMsg where
  fields : MsgFields := ⟨"", ""⟩
  properties : Option MsgProps := none
  content : Option Bytes := none
deriving Repr

/-- Own enumerable fields of the message object, as `copy` would shallow-copy
them in the no-payload branch of fromAMQPMessage. -/
def msgFields (m : AMQPMsg) : List (List Char × JSValue) :=
  [("fields".data, vObj [("routingKey".data, vStr m.fields.routingKey.data),
                         ("exchange".data, vStr m.fields.exchange.data)]),
   ("properties".data,
     match m.properties with
     | some p => vObj [("correlationId".data, vStr p.correlationId.data),
                       ("replyTo".data, vStr p.replyTo.data)]
     | none => vUndef)]

/-- Model of `Bunnydo.prototype.fromAMQPMessage` (src/index.js lines
232-245): start from a shallow copy of the message object; when the message
carries a payload Buffer (any Buffer, even empty, is truthy), replace the
result by the payload text, upgraded to the parsed value when the text is
valid JSON and kept verbatim otherwise. -/
def fromAMQPMessage (m : AMQPMsg) : JSValue :=
  let obj := vObj (msgFields m)
  match m.content with
  | some bytes =>
    match jsonParse bytes with
    | some v => v
    | none => vStr bytes
  | none => obj

/- Client state and pattern operations.  The three JS instance maps
(`this.queues`, `this.rpcCB`, `this.exBindings`) become association lists;
a queue object `q` returned by assertQueue is modelled by its `q.queue` name
(the only field the source reads).  Channel operations are recorded in an
effect trace; they succeed while `chOpen` is true, and on a closed channel an
asserted operation's promise rejects while sendToQueue / publish throw
synchronously, following the amqplib contract.  The promise chains of the
source are single-threaded, so they are flattened into sequential code; the
concurrent double-setup race the spec discusses in section 5 is outside these
claims.  `uuid()` is modelled by a counter rendered into an opaque token,
matching the generator's fresh-token contract. -/

/-- Lookup in an association list keyed by strings (JS property read). -/
def alookup : List (String × α) → String → Option α
  | [], _ => none
  | (k, v) :: rest, key => if k = key then some v else alookup rest key

/-- Property write: replace the value under an existing key, or append. -/
def aset : List (String × α) → String → α → List (String × α)
  | [], key, v => [(key, v)]
  | (k, w) :: rest, key, v =>
    if k = key then (k, v) :: rest else (k, w) :: aset rest key v

/-- Property delete (the JS `delete` operator). -/
def adel (l : List (String × α)) (key : String) : List (String × α) :=
  l.filter (fun kv => kv.1 ≠ key)

/-- Queue/exchange declaration options read by the source.  A `none` field
models an absent (undefined) key. -/
structure QOpts where
  durable : Option Bool := none
  exclusive : Option Bool := none
deriving Repr, DecidableEq

/-- Publish options: the source threads `correlationId`, `replyTo`,
`deliveryMode` and the RPC-specific `autoDeleteCallback` flag through the
option bag.  Absent string keys are the empty string (falsy), absent
booleans are `none`. -/
structure SendOpts where
  correlationId : String := ""
  replyTo : String := ""
  deliveryMode : Option Bool := none
  autoDeleteCallback : Option Bool := none
deriving Repr, DecidableEq

/-- Correlation table entry: the registered reply callback (identified by an
opaque number, since the embedding does not store functions) and its
auto-delete policy.  The source always stores a boolean `autoDelete` (it
defaults the flag to true before registering). -/
structure RpcEntry where
  cbId : Nat
  autoDelete : Bool
deriving Repr, DecidableEq

/-- Observable events of a run: channel operations issued on the broker and
invocations of caller-supplied callbacks. -/
inductive Effect where
  | assertQueueE (name : String) (opts : QOpts)
  | assertExchangeE (name ty : String) (durable : Bool)
  | bindQueueE (q ex : String)
  | consumeE (q : String) (noAck : Bool)
  | sendToQueueE (q : String) (data : Bytes) (opts : SendOpts)
  | ackE
  | warnE
  | userCbE (cbId : Nat) (err : Option JSErr)
  | rpcReplyE (cbId : Nat) (reply : JSValue)
  | handlerE (cbId : Nat) (data : JSValue)
  | unknownCorrE (corrId : String)
  | noCorrE
deriving Repr

open Effect

/-- Client instance state: the process identity used for private queue
names, whether the channel is usable, the three instance maps of the
constructor (src/index.js lines 37-45), and the uuid counter. -/
structure BD where
  pid : String
  chOpen : Bool
  queues : List (String × String)
  rpcCB : List (String × RpcEntry)
  exBindings : List (String × String)
  nextUuid : Nat
deriving Repr

/-- Fresh opaque correlation token produced by the modelled uuid generator. -/
def uuidString (n : Nat) : String := "uuid-" ++ toString n

/-- Outcome of `send` for its caller: either the completion callback was
invoked with the given error argument, or a synchronous exception escaped
before the callback could run. -/
inductive SendResult where
  | calledFn (err : Option JSErr)
  | threw (e : JSErr)
deriving Repr, DecidableEq

/-- Model of `Bunnydo.prototype.send` (src/index.js lines 293-306): encode
the message (which can throw), call `ch.sendToQueue` (which throws on a
closed channel and reports nothing through callbacks otherwise), then invoke
`fn()` with no arguments.  The state is read but never written. -/
def send (st : BD) (queue : String) (message : JSValue) (options : SendOpts) :
    List Effect × SendResult :=
  match toAMQPMessage message with
  | .error e => ([], .threw e)
  | .ok data =>
    if st.chOpen then ([sendToQueueE queue data options], .calledFn none)
    else ([], .threw .channelClosed)

/-- Model of `Bunnydo.prototype.addWorkerQueue` (src/index.js lines
116-138) composed with the `assertQueue` wrapper it calls (lines 90-108).
The source's guard `typeof options !== 'boolean'` is true for every options
object, so `options.durable = true` runs unconditionally, overwriting any
caller-supplied `durable` (the sibling functions test the field itself:
`typeof options.exclusive !== 'boolean'` in addRpcQueue and
`typeof opts.deliveryMode !== 'boolean'` in worker).  The boolean-options
corner the guard nominally allows is not modelled.  On success the callback
receives the queue and the logical name is cached; on a rejected assert the
wrapper reports the error to the callback. -/
def addWorkerQueue (st : BD) (queue : String) (options : QOpts) :
    BD × List Effect × Except JSErr String :=
  let options := { options with durable := some true }
  let warnTr := if queue ≠ "" ∧ (alookup st.queues queue).isSome then [warnE] else []
  if st.chOpen then
    let st' := if queue ≠ "" then { st with queues := aset st.queues queue queue } else st
    (st', warnTr ++ [assertQueueE queue options], .ok queue)
  else (st, warnTr, .error .channelClosed)

/-- Model of `Bunnydo.prototype.worker` (src/index.js lines 316-346):
default `deliveryMode` to true in the publish options, send directly when
the logical queue is cached, and otherwise set the queue up first.  Note the
source passes only a callback to addWorkerQueue, so the caller's options
never reach the declaration.  The third component records an escaped
synchronous exception. -/
def worker (st : BD) (queue : String) (message : JSValue) (options : SendOpts)
    (cbId : Nat) : BD × List Effect × Option JSErr :=
  let opts := if options.deliveryMode = none then
      { options with deliveryMode := some true } else options
  match alookup st.queues queue with
  | some _ =>
    match send st queue message opts with
    | (tr, .calledFn e) => (st, tr ++ [userCbE cbId e], none)
    | (tr, .threw e) => (st, tr, some e)
  | none =>
    match addWorkerQueue st queue {} with
    | (st1, tr1, .error e) => (st1, tr1 ++ [userCbE cbId (some e)], none)
    | (st1, tr1, .ok _) =>
      match send st1 queue message opts with
      | (tr2, .calledFn e) => (st1, tr1 ++ tr2 ++ [userCbE cbId e], none)
      | (tr2, .threw e) => (st1, tr1 ++ tr2, some e)

/-- Outcome of addRpcQueue for its caller: the callback received the reply
queue, or it was never invoked (the source's assertQueue callback does
nothing when the assert rejects, silently dropping the continuation). -/
inductive AddRpcResult where
  | okQ (q : String)
  | silentDrop
deriving Repr, DecidableEq

/-- Setup path of addRpcQueue: assert the per-process reply queue (the
wrapper warns when the raw name is already cached), cache it under the
logical name, and start the rpcHandler consumer with noAck. -/
def addRpcSetup (st : BD) (queue inq : String) (options : QOpts) :
    BD × List Effect × AddRpcResult :=
  let warnTr := if inq ≠ "" ∧ (alookup st.queues inq).isSome then [warnE] else []
  if st.chOpen then
    if queue ≠ "" then
      ({ st with queues := aset st.queues queue inq },
       warnTr ++ [assertQueueE inq options, consumeE inq true], .okQ inq)
    else (st, warnTr ++ [assertQueueE inq options], .silentDrop)
  else (st, warnTr, .silentDrop)

/-- Model of `Bunnydo.prototype.addRpcQueue` (src/index.js lines 147-185):
default `exclusive` to true, derive the private reply queue name from the
logical name and the process identity, and reuse the cached entry when its
queue name is truthy and equals that derived name; otherwise run the setup
path. -/
def addRpcQueue (st : BD) (queue : String) (options : QOpts) :
    BD × List Effect × AddRpcResult :=
  let options := if options.exclusive = none then
      { options with exclusive := some true } else options
  let inq := queue ++ "_rpc_queue_" ++ st.pid
  match alookup st.queues queue with
  | some q =>
    if q ≠ "" ∧ q = inq then (st, [], .okQ q)
    else addRpcSetup st queue inq options
  | none => addRpcSetup st queue inq options

/-- Model of `Bunnydo.prototype.rpc` (src/index.js lines 356-402): ensure
the reply queue, then (in `dorpc`) draw a fresh correlation id, register the
caller's callback with its auto-delete policy, and publish the request with
the correlation id and reply address attached.  The callback given to `send`
deletes the registration and surfaces the error only when `send` reports a
truthy error.  The third component records an escaped synchronous
exception. -/
def rpc (st : BD) (queue : String) (message : JSValue) (options : SendOpts)
    (cbId : Nat) : BD × List Effect × Option JSErr :=
  match addRpcQueue st queue {} with
  | (st1, tr1, .silentDrop) => (st1, tr1, none)
  | (st1, tr1, .okQ replyQ) =>
    let corrId := uuidString st1.nextUuid
    let opts := { options with correlationId := corrId, replyTo := replyQ }
    let autoDelete := options.autoDeleteCallback.getD true
    let st2 := { st1 with nextUuid := st1.nextUuid + 1,
                          rpcCB := aset st1.rpcCB corrId ⟨cbId, autoDelete⟩ }
    match send st2 queue message opts with
    | (tr2, .calledFn none) => (st2, tr1 ++ tr2, none)
    | (tr2, .calledFn (some e)) =>
      ({ st2 with rpcCB := adel st2.rpcCB corrId },
       tr1 ++ tr2 ++ [userCbE cbId (some e)], none)
    | (tr2, .threw e) => (st2, tr1 ++ tr2, some e)

/-- Correlation id carried by a reply, as rpcHandler reads it: empty when
the properties object is absent (`msg.properties ? msg.properties.correlationId : ''`). -/
def corrOf (msg : AMQPMsg) : String :=
  match msg.properties with
  | some p => p.correlationId
  | none => ""

/-- Model of `Bunnydo.prototype.rpcHandler` (src/index.js lines 260-283):
read the correlation id (empty when the properties object is absent); when
it is truthy and registered, decode the reply, invoke the callback, and
delete the entry unless auto-delete was disabled; when it is truthy but
unknown, or falsy, only log. -/
def rpcHandler (st : BD) (msg : AMQPMsg) : BD × List Effect :=
  let corrId := corrOf msg
  match alookup st.rpcCB corrId with
  | some cbObj =>
    if corrId ≠ "" then
      let reply := fromAMQPMessage msg
      if cbObj.autoDelete then
        ({ st with rpcCB := adel st.rpcCB corrId }, [rpcReplyE cbObj.cbId reply])
      else (st, [rpcReplyE cbObj.cbId reply])
    else (st, [noCorrE])
  | none =>
    if corrId ≠ "" then (st, [unknownCorrE corrId]) else (st, [noCorrE])

/-- Model of `Bunnydo.prototype.onPubsub` (src/index.js lines 508-550):
assert the fanout exchange and the per-process exclusive queue, bind the
queue to the exchange only when no matching binding is recorded, and then
always start a consumer on the resulting queue with noAck (the consume call
sits outside the binding-reuse branch and runs on every call).  A failure in
the promise chain only reaches console.warn. -/
def onPubsub (st : BD) (exchange : String) : BD × List Effect :=
  let exq := exchange ++ "_queue_" ++ st.pid
  if st.chOpen then
    let tr1 := [assertExchangeE exchange "fanout" false,
                assertQueueE exq { exclusive := some true }]
    match alookup st.exBindings exchange with
    | some bq =>
      if bq ≠ exq then
        ({ st with exBindings := aset st.exBindings exchange exq },
         tr1 ++ [bindQueueE exq exchange, consumeE exq true])
      else (st, tr1 ++ [consumeE exq true])
    | none =>
      ({ st with exBindings := aset st.exBindings exchange exq },
       tr1 ++ [bindQueueE exq exchange, consumeE exq true])
  else (st, [warnE])

/-- Per-request closure state of the onRpc consumer (src/index.js lines
468-498): the reply address and correlation id captured from the request,
and the `ackd` flag guarding the acknowledgment. -/
structure ReplyCtx where
  replyQ : String
  corrId : String
  replyTo : String
  ackd : Bool
deriving Repr, DecidableEq

/-- Model of the onRpc consumer receiving one request (src/index.js lines
468-498): read the reply address and correlation id from the properties
object (an absent properties object makes the unguarded reads throw), decode
the request and hand it to the handler together with the reply closure
state. -/
def onRpcReceive (msg : AMQPMsg) (handlerId : Nat) :
    Except JSErr (ReplyCtx × List Effect) :=
  match msg.properties with
  | none => .error .typeError
  | some p =>
    let ctx : ReplyCtx := ⟨p.replyTo, p.correlationId, p.replyTo, false⟩
    let inData := fromAMQPMessage msg
    .ok (ctx, [handlerE handlerId inData])

/-- Model of `replyFn` (src/index.js lines 482-494): a call does nothing
unless both the reply address and the correlation id are truthy; otherwise
it encodes the response (a throw escapes before any channel operation),
publishes it to the reply address with the original correlation id (a closed
channel throws), and acknowledges the request only if it has not been
acknowledged yet. -/
def replyFn (chOpen : Bool) (ctx : ReplyCtx) (response : JSValue) :
    ReplyCtx × List Effect :=
  if ctx.replyQ ≠ "" ∧ ctx.corrId ≠ "" then
    match toAMQPMessage response with
    | .error _ => (ctx, [])
    | .ok outData =>
      if chOpen then
        let tr := [sendToQueueE ctx.replyTo outData { correlationId := ctx.corrId }]
        if ctx.ackd then (ctx, tr) else ({ ctx with ackd := true }, tr ++ [ackE])
      else (ctx, [])
  else (ctx, [])

/-- Repeated invocations of replyFn by the handler, collecting all effects. -/
def replyIter (chOpen : Bool) (ctx : ReplyCtx) : List JSValue → ReplyCtx × List Effect
  | [] => (ctx, [])
  | r :: rs =>
    let p1 := replyFn chOpen ctx r
    let p2 := replyIter chOpen p1.1 rs
    (p2.1, p1.2 ++ p2.2)

/-- Number of effects in a trace satisfying a predicate. -/
def countP (p : Effect → Bool) (tr : List Effect) : Nat := (tr.filter p).length

/-- Predicate for consumer subscriptions on a given queue. -/
def isConsumeOn (q : String) : Effect → Bool
  | consumeE q' _ => q' = q
  | _ => false

/-- Predicate for queue bindings to a given exchange. -/
def isBindTo (ex : String) : Effect → Bool
  | bindQueueE _ ex' => ex' = ex
  | _ => false

/-- Predicate for queue declarations. -/
def isAssertQueue : Effect → Bool
  | assertQueueE _ _ => true
  | _ => false

/-- Predicate for broker acknowledgments. -/
def isAck : Effect → Bool
  | ackE => true
  | _ => false

/-- Predicate for invocations of a given completion callback with an error
argument. -/
def isErrCb (cbId : Nat) : Effect → Bool
  | userCbE i (some _) => i = cbId
  | _ => false

/- JSON representability: the fragment of the value space on which the
encode/decode round trip is claimed.  A value is JSON-representable when it
is built from null, booleans, integral numbers, strings, arrays and objects
with distinct keys; undefined and Buffers are excluded. -/

/-- Key membership in an object's field list. -/
def hasKey : List (List Char × JSValue) → List Char → Bool
  | [], _ => false
  | (k, _) :: rest, key => if k = key then true else hasKey rest key

/-- Distinctness of an object's keys. -/
def nodupKeys : List (List Char × JSValue) → Bool
  | [] => true
  | (k, _) :: rest => !(hasKey rest k) && nodupKeys rest

mutual

/-- JSON-representable values. -/
def jsonRep : JSValue → Bool
  | vUndef => false
  | vNull => true
  | vBool _ => true
  | vNum _ => true
  | vStr _ => true
  | vBuf _ => false
  | vObj fs => nodupKeys fs && repFields fs
  | vArr es => repElems es

/-- All field values JSON-representable. -/
def repFields : List (List Char × JSValue) → Bool
  | [] => true
  | (_, v) :: rest => jsonRep v && repFields rest

/-- All elements JSON-representable. -/
def repElems : List JSValue → Bool
  | [] => true
  | v :: rest => jsonRep v && repElems rest

end

mutual

/-- Fuel units the parser spends below a value (one per value, member and
element step). -/
def sizeJ : JSValue → Nat
  | vObj fs => 1 + sizeFields fs
  | vArr es => 1 + sizeElems es
  | _ => 1

/-- Fuel units spent on an object's members. -/
def sizeFields : List (List Char × JSValue) → Nat
  | [] => 0
  | (_, v) :: rest => 1 + sizeJ v + sizeFields rest

/-- Fuel units spent on an array's elements. -/
def sizeElems : List JSValue → Nat
  | [] => 0
  | v :: rest => 1 + sizeJ v + sizeElems rest

end

/-- Delimiters that may legally follow a serialized value inside a JSON
document (or the end of input). -/
def delimOk : List Char → Bool
  | [] => true
  | c :: _ => c = ',' ∨ c = '\x7d' ∨ c = ']'

/-- Input whose first character (if any) is not a decimal digit. -/
def headNotDigit : List Char → Bool
  | [] => true
  | c :: _ => !c.isDigit

/-- Number of decimal digits `natChars` produces. -/
def numDigits (n : Nat) : Nat :=
  if _h : n < 10 then 1 else numDigits (n / 10) + 1
decreasing_by exact Nat.div_lt_self (by omega) (by omega)

/- Concrete runs used by the counterexample theorems. -/

/-- Two pubsub subscriptions to the same exchange on a fresh open client. -/
def pubsubRun1 : BD × List Effect := onPubsub ⟨"1", true, [], [], [], 0⟩ "ex"

/-- Second subscription, continuing from the first. -/
def pubsubRun2 : BD × List Effect := onPubsub pubsubRun1.1 "ex"

/-- An rpc send on a client whose reply queue is already set up but whose
channel has closed, so the publish throws. -/
def rpcFailRun : BD × List Effect × Option JSErr :=
  rpc ⟨"1", false, [("q", "q_rpc_queue_1")], [], [], 0⟩ "q" (vStr ['m']) {} 7

/-- A send on a closed channel. -/
def sendFailRun : List Effect × SendResult :=
  send ⟨"1", false, [], [], [], 0⟩ "q" (vStr ['m']) {}

/-- A worker-queue declaration passing durable:false on a fresh open
client. -/
def workerDeclRun : BD × List Effect × Except JSErr String :=
  addWorkerQueue ⟨"1", true, [], [], [], 0⟩ "jobs" { durable := some false }

/-- Predicate for any consumer subscription. -/
def isConsume : Effect → Bool
  | consumeE _ _ => true
  | _ => false

/-- A reply message carrying correlation id "c" and the payload text 5. -/
def replyMsg : AMQPMsg := ⟨⟨"rk", ""⟩, some ⟨"c", ""⟩, some ['5']⟩

/-- An RPC-server request whose reply address is absent (empty). -/
def noReplyMsg : AMQPMsg := ⟨⟨"rk", ""⟩, some ⟨"c", ""⟩, some ['5']⟩

/- Lemmas: decimal digits and numbers. -/

theorem digitVal_digitChar (n : Nat) (h : n < 10) : digitVal (digitChar n) = n := by
  interval_cases n <;> decide

theorem isDigit_digitChar (n : Nat) (h : n < 10) : (digitChar n).isDigit = true := by
  interval_cases n <;> decide

theorem natChars_head (m : Nat) : ∃ d ds, natChars m = d :: ds ∧ d.isDigit = true := by
  induction m using Nat.strong_induction_on with
  | _ m ih =>
    rw [natChars]
    by_cases h : m < 10
    · exact ⟨digitChar m, [], by simp [h], isDigit_digitChar m h⟩
    · obtain ⟨d, ds, hd, hdig⟩ := ih (m / 10) (Nat.div_lt_self (by omega) (by omega))
      exact ⟨d, ds ++ [digitChar (m % 10)], by simp [h, hd], hdig⟩

theorem parseDigitsAux_natChars (m : Nat) : ∀ acc rest,
    parseDigitsAux acc (natChars m ++ rest) =
      parseDigitsAux (acc * 10 ^ numDigits m + m) rest := by
  induction m using Nat.strong_induction_on with
  | _ m ih =>
    intro acc rest
    rw [natChars, numDigits]
    by_cases h : m < 10
    · simp only [h, dite_true]
      rw [List.cons_append, List.nil_append, parseDigitsAux]
      simp [isDigit_digitChar m h, digitVal_digitChar m h]
    · simp only [h, dite_false]
      rw [List.append_assoc, List.cons_append, List.nil_append,
        ih (m / 10) (Nat.div_lt_self (by omega) (by omega)) acc
          (digitChar (m % 10) :: rest)]
      rw [parseDigitsAux]
      have h10 : m % 10 < 10 := Nat.mod_lt m (by omega)
      simp only [isDigit_digitChar (m % 10) h10, if_true,
        digitVal_digitChar (m % 10) h10]
      congr 1
      rw [pow_succ]
      have := Nat.div_add_mod m 10
      ring_nf
      omega

theorem parseDigitsAux_stop (acc : Nat) (rest : List Char)
    (h : headNotDigit rest = true) : parseDigitsAux acc rest = (acc, rest) := by
  match rest with
  | [] => rfl
  | c :: cs =>
    simp only [headNotDigit, Bool.not_eq_true'] at h
    simp [parseDigitsAux, h]

theorem parseNum_natChars (m : Nat) (rest : List Char)
    (h : headNotDigit rest = true) :
    parseNum (natChars m ++ rest) = some (m, rest) := by
  obtain ⟨d, ds, hd, hdig⟩ := natChars_head m
  have hcons : natChars m ++ rest = d :: (ds ++ rest) := by rw [hd]; rfl
  rw [hcons, parseNum]
  simp only [hdig, if_true]
  rw [← hcons, parseDigitsAux_natChars m 0 rest, Nat.zero_mul, Nat.zero_add,
    parseDigitsAux_stop m rest h]

/- Lemmas: string escaping round trip. -/

theorem hexVal_hexDigitChar (n : Nat) (h : n < 16) : hexVal (hexDigitChar n) = some n := by
  interval_cases n <;> decide

theorem parseStrBody_escChar (c : Char) (rest : List Char) :
    parseStrBody (escChar c ++ rest) =
      (parseStrBody rest).map (fun p => (c :: p.1, p.2)) := by
  rw [escChar]
  split_ifs with h1 h2 h3 h4 h5 h6 h7 h8
  · subst h1; simp only [List.cons_append, List.nil_append]
    rw [parseStrBody.eq_def]; simp
  · subst h2; simp only [List.cons_append, List.nil_append]
    rw [parseStrBody.eq_def]; simp
  · subst h3; simp only [List.cons_append, List.nil_append]
    rw [parseStrBody.eq_def]; simp
  · subst h4; simp only [List.cons_append, List.nil_append]
    rw [parseStrBody.eq_def]; simp
  · subst h5; simp only [List.cons_append, List.nil_append]
    rw [parseStrBody.eq_def]; simp
  · subst h6; simp only [List.cons_append, List.nil_append]
    rw [parseStrBody.eq_def]; simp
  · subst h7; simp only [List.cons_append, List.nil_append]
    rw [parseStrBody.eq_def]; simp
  · have hd1 : c.toNat / 16 < 16 := by omega
    have hd2 : c.toNat % 16 < 16 := by omega
    simp only [List.cons_append, List.nil_append]
    rw [parseStrBody.eq_def]
    simp only [reduceIte, reduceCtorEq, hexVal_hexDigitChar _ hd1,
      hexVal_hexDigitChar _ hd2]
    rw [show hexVal '0' = some 0 from by decide]
    show (Option.map
      (fun p => (Char.ofNat
        (((0 * 16 + 0) * 16 + c.toNat / 16) * 16 + c.toNat % 16) :: p.1, p.2))
      (parseStrBody rest)) = _
    rw [show ((0 * 16 + 0) * 16 + c.toNat / 16) * 16 + c.toNat % 16 = c.toNat
        from by omega, Char.ofNat_toNat]
  · simp only [List.cons_append, List.nil_append]
    rw [parseStrBody.eq_def]
    simp [h1, h2, h8]

theorem parseStrBody_serStrBody (s : List Char) : ∀ rest,
    parseStrBody (serStrBody s ++ rest) = some (s, rest) := by
  induction s with
  | nil =>
    intro rest
    rw [serStrBody, List.cons_append, List.nil_append, parseStrBody.eq_def]
    simp
  | cons c cs ih =>
    intro rest
    rw [serStrBody, List.append_assoc, parseStrBody_escChar, ih]
    rfl

theorem stripPre_same (pre : List Char) : ∀ rest, stripPre pre (pre ++ rest) = some rest := by
  induction pre with
  | nil => intro rest; rfl
  | cons p ps ih => intro rest; simp [stripPre, ih]

/- Lemmas: character classes at branch points of the value parser. -/

theorem notWs_of_isDigit (c : Char) (h : c.isDigit = true) : isWs c = false := by
  rw [isWs]
  apply decide_eq_false
  rintro (rfl | rfl | rfl | rfl) <;> exact absurd h (by decide)

theorem digit_branch_facts (c : Char) (h : c.isDigit = true) :
    c ≠ 'n' ∧ c ≠ 't' ∧ c ≠ 'f' ∧ c ≠ '"' ∧ c ≠ '-' ∧ c ≠ '\x7b' ∧ c ≠ '[' ∧
    c ≠ ']' ∧ c ≠ '\x7d' ∧ c ≠ ',' := by
  refine ⟨?_, ?_, ?_, ?_, ?_, ?_, ?_, ?_, ?_, ?_⟩ <;>
    (rintro rfl; exact absurd h (by decide))

theorem headNotDigit_of_delimOk (rest : List Char) (h : delimOk rest = true) :
    headNotDigit rest = true := by
  match rest with
  | [] => rfl
  | c :: cs =>
    rw [delimOk, decide_eq_true_eq] at h
    rcases h with rfl | rfl | rfl <;> rfl

theorem skipWs_not_ws (c : Char) (cs : List Char) (h : isWs c = false) :
    skipWs (c :: cs) = c :: cs := by
  simp [skipWs, h]

/- Lemmas: serializer shapes and the serialize/parse round trip. -/

theorem sizeJ_pos (v : JSValue) : 1 ≤ sizeJ v := by cases v <;> simp [sizeJ]

theorem serMembers_cons (k : List Char) (v : JSValue) (fs : List (List Char × JSValue))
    (h : jsonRep v = true) :
    serMembers ((k, v) :: fs) = serStr k ++ ':' :: serVal v ++ serMembersTail fs := by
  cases v <;> first | rfl | exact absurd h (by decide)

theorem serMembersTail_cons (k : List Char) (v : JSValue) (fs : List (List Char × JSValue))
    (h : jsonRep v = true) :
    serMembersTail ((k, v) :: fs) = ',' :: serStr k ++ ':' :: serVal v ++ serMembersTail fs := by
  cases v <;> first | rfl | exact absurd h (by decide)

theorem delimOk_serMembersTail (fs : List (List Char × JSValue)) (rest : List Char)
    (h : repFields fs = true) : delimOk (serMembersTail fs ++ rest) = true := by
  cases fs with
  | nil => rfl
  | cons kv fs' =>
    obtain ⟨k, v⟩ := kv
    rw [repFields, Bool.and_eq_true] at h
    rw [serMembersTail_cons k v fs' h.1]
    rfl

theorem delimOk_serElemsTail (es : List JSValue) (rest : List Char) :
    delimOk (serElemsTail es ++ rest) = true := by
  cases es <;> rfl

theorem p2step (fuel : Nat)
    (ihV : ∀ v rest, jsonRep v = true → sizeJ v ≤ fuel → delimOk rest = true →
      parseValue fuel (serVal v ++ rest) = some (v, rest))
    (ihM : ∀ fs rest, fs ≠ [] → repFields fs = true → sizeFields fs ≤ fuel →
      parseMembers fuel (serMembers fs ++ rest) = some (fs, rest)) :
    ∀ fs rest, fs ≠ [] → repFields fs = true → sizeFields fs ≤ fuel + 1 →
      parseMembers (fuel + 1) (serMembers fs ++ rest) = some (fs, rest) := by
  intro fs rest hne hrep hsz
  match fs, hne with
  | (k, v) :: fs', _ =>
    rw [repFields, Bool.and_eq_true] at hrep
    obtain ⟨hv, hfs'⟩ := hrep
    rw [sizeFields] at hsz
    rw [serMembers_cons k v fs' hv, serStr, parseMembers]
    simp only [List.cons_append, List.append_assoc]
    rw [skipWs_not_ws '"' _ (by decide)]
    simp only []
    rw [parseStrBody_serStrBody]
    simp only []
    rw [skipWs_not_ws ':' _ (by decide)]
    simp only []
    rw [ihV v (serMembersTail fs' ++ rest) hv (by have := sizeJ_pos v; omega)
      (delimOk_serMembersTail fs' rest hfs')]
    simp only []
    match fs' with
    | [] =>
      rw [serMembersTail, List.cons_append, List.nil_append,
        skipWs_not_ws '\x7d' _ (by decide)]
      rfl
    | (k2, v2) :: fs'' =>
      have hv2 : jsonRep v2 = true := by
        rw [repFields, Bool.and_eq_true] at hfs'
        exact hfs'.1
      rw [serMembersTail_cons k2 v2 fs'' hv2]
      simp only [List.cons_append, List.append_assoc]
      rw [skipWs_not_ws ',' _ (by decide)]
      simp only []
      rw [show serStr k2 ++ ':' :: (serVal v2 ++ (serMembersTail fs'' ++ rest))
          = serMembers ((k2, v2) :: fs'') ++ rest from by
        rw [serMembers_cons k2 v2 fs'' hv2]
        simp [List.append_assoc]]
      rw [ihM ((k2, v2) :: fs'') rest (List.cons_ne_nil _ _) hfs' (by
        rw [sizeFields]
        have := sizeJ_pos v2
        rw [sizeFields] at hsz
        omega)]
      rfl

theorem p3step (fuel : Nat)
    (ihV : ∀ v rest, jsonRep v = true → sizeJ v ≤ fuel → delimOk rest = true →
      parseValue fuel (serVal v ++ rest) = some (v, rest))
    (ihE : ∀ es rest, es ≠ [] → repElems es = true → sizeElems es ≤ fuel →
      parseElems fuel (serElems es ++ rest) = some (es, rest)) :
    ∀ es rest, es ≠ [] → repElems es = true → sizeElems es ≤ fuel + 1 →
      parseElems (fuel + 1) (serElems es ++ rest) = some (es, rest) := by
  intro es rest hne hrep hsz
  match es, hne with
  | v :: es', _ =>
    rw [repElems, Bool.and_eq_true] at hrep
    obtain ⟨hv, hes'⟩ := hrep
    rw [sizeElems] at hsz
    rw [serElems, List.append_assoc, parseElems]
    rw [ihV v (serElemsTail es' ++ rest) hv (by have := sizeJ_pos v; omega)
      (delimOk_serElemsTail es' rest)]
    simp only []
    match es' with
    | [] =>
      rw [serElemsTail, List.cons_append, List.nil_append,
        skipWs_not_ws ']' _ (by decide)]
      rfl
    | v2 :: es'' =>
      rw [serElemsTail]
      simp only [List.cons_append, List.append_assoc]
      rw [skipWs_not_ws ',' _ (by decide)]
      simp only []
      rw [show serVal v2 ++ (serElemsTail es'' ++ rest)
          = serElems (v2 :: es'') ++ rest from by
        rw [serElems]
        simp [List.append_assoc]]
      rw [ihE (v2 :: es'') rest (List.cons_ne_nil _ _) hes' (by
        have := sizeJ_pos v
        omega)]
      rfl

theorem parseValue_brace (fuel : Nat) (cs : List Char) :
    parseValue (fuel + 1) ('\x7b' :: cs) =
      (match skipWs cs with
       | '\x7d' :: rest2 => some (vObj [], rest2)
       | rest1 => Option.map (fun p => (vObj p.1, p.2)) (parseMembers fuel rest1)) := by
  rw [parseValue, skipWs_not_ws '\x7b' _ (by decide)]
  rfl

theorem parseValue_bracket (fuel : Nat) (cs : List Char) :
    parseValue (fuel + 1) ('[' :: cs) =
      (match skipWs cs with
       | ']' :: rest2 => some (vArr [], rest2)
       | rest1 => Option.map (fun p => (vArr p.1, p.2)) (parseElems fuel rest1)) := by
  rw [parseValue, skipWs_not_ws '[' _ (by decide)]
  rfl

theorem pObj (fuel : Nat)
    (ihM : ∀ fs rest, fs ≠ [] → repFields fs = true → sizeFields fs ≤ fuel →
      parseMembers fuel (serMembers fs ++ rest) = some (fs, rest))
    (k : List Char) (v : JSValue) (fs' : List (List Char × JSValue)) (rest : List Char)
    (hrep : jsonRep (vObj ((k, v) :: fs')) = true)
    (hsz : sizeJ (vObj ((k, v) :: fs')) ≤ fuel + 1) :
    parseValue (fuel + 1) (serVal (vObj ((k, v) :: fs')) ++ rest)
      = some (vObj ((k, v) :: fs'), rest) := by
  rw [jsonRep, Bool.and_eq_true] at hrep
  obtain ⟨hnd, hrepf⟩ := hrep
  have hv : jsonRep v = true := by
    rw [repFields, Bool.and_eq_true] at hrepf
    exact hrepf.1
  rw [serVal, List.cons_append, parseValue_brace]
  rw [serMembers_cons k v fs' hv, serStr]
  simp only [List.cons_append, List.append_assoc]
  rw [skipWs_not_ws '"' _ (by decide)]
  split
  next heq =>
    injection heq with h1 _
    exact absurd h1 (by decide)
  next =>
    rw [show ('"' : Char) :: (serStrBody k ++ (':' :: (serVal v ++ (serMembersTail fs' ++ rest))))
        = serMembers ((k, v) :: fs') ++ rest from by
      rw [serMembers_cons k v fs' hv, serStr]
      simp [List.append_assoc]]
    rw [ihM ((k, v) :: fs') rest (List.cons_ne_nil _ _) hrepf (by
      rw [sizeJ] at hsz
      omega)]
    rfl

theorem serVal_head (v : JSValue) (h : jsonRep v = true) :
    ∃ c cs, serVal v = c :: cs ∧ isWs c = false ∧ c ≠ ']' ∧ c ≠ '\x7d' := by
  cases v with
  | vUndef => exact absurd h (by decide)
  | vBuf bytes => simp [jsonRep] at h
  | vNull => exact ⟨'n', _, rfl, by decide, by decide, by decide⟩
  | vBool b =>
    cases b with
    | false => exact ⟨'f', _, rfl, by decide, by decide, by decide⟩
    | true => exact ⟨'t', _, rfl, by decide, by decide, by decide⟩
  | vNum n =>
    rw [serVal, intChars]
    by_cases hn : n < 0
    · rw [if_pos hn]
      exact ⟨'-', _, rfl, by decide, by decide, by decide⟩
    · rw [if_neg hn]
      obtain ⟨d, ds, hd, hdig⟩ := natChars_head n.toNat
      obtain ⟨_, _, _, _, _, _, _, hrb, hcb, _⟩ := digit_branch_facts d hdig
      exact ⟨d, ds, hd, notWs_of_isDigit d hdig, hrb, hcb⟩
  | vStr s => exact ⟨'"', _, rfl, by decide, by decide, by decide⟩
  | vObj fs => exact ⟨'\x7b', _, rfl, by decide, by decide, by decide⟩
  | vArr es => exact ⟨'[', _, rfl, by decide, by decide, by decide⟩

theorem pArr (fuel : Nat)
    (ihE : ∀ es rest, es ≠ [] → repElems es = true → sizeElems es ≤ fuel →
      parseElems fuel (serElems es ++ rest) = some (es, rest))
    (v : JSValue) (es' : List JSValue) (rest : List Char)
    (hrep : jsonRep (vArr (v :: es')) = true)
    (hsz : sizeJ (vArr (v :: es')) ≤ fuel + 1) :
    parseValue (fuel + 1) (serVal (vArr (v :: es')) ++ rest)
      = some (vArr (v :: es'), rest) := by
  rw [jsonRep] at hrep
  have hv : jsonRep v = true := by
    rw [repElems, Bool.and_eq_true] at hrep
    exact hrep.1
  rw [serVal, List.cons_append, parseValue_bracket, serElems]
  simp only [List.append_assoc]
  obtain ⟨c, cs, hc, hws, hrb, _⟩ := serVal_head v hv
  rw [hc]
  simp only [List.cons_append]
  rw [skipWs_not_ws c _ hws]
  split
  next heq =>
    injection heq with h1 _
    exact absurd h1 hrb
  next =>
    rw [show c :: (cs ++ (serElemsTail es' ++ rest)) = serElems (v :: es') ++ rest from by
      rw [serElems, hc]
      simp [List.append_assoc]]
    rw [ihE (v :: es') rest (List.cons_ne_nil _ _) hrep (by
      rw [sizeJ] at hsz
      omega)]
    rfl

theorem p1step (fuel : Nat)
    (ihM : ∀ fs rest, fs ≠ [] → repFields fs = true → sizeFields fs ≤ fuel →
      parseMembers fuel (serMembers fs ++ rest) = some (fs, rest))
    (ihE : ∀ es rest, es ≠ [] → repElems es = true → sizeElems es ≤ fuel →
      parseElems fuel (serElems es ++ rest) = some (es, rest)) :
    ∀ v rest, jsonRep v = true → sizeJ v ≤ fuel + 1 → delimOk rest = true →
      parseValue (fuel + 1) (serVal v ++ rest) = some (v, rest) := by
  intro v rest hrep hsz hdlm
  cases v with
  | vUndef => exact absurd hrep (by decide)
  | vBuf bytes => simp [jsonRep] at hrep
  | vNull =>
    show parseValue (fuel + 1) ('n' :: 'u' :: 'l' :: 'l' :: rest) = some (vNull, rest)
    rw [parseValue]
    simp [skipWs, isWs, stripPre]
  | vBool b =>
    cases b with
    | false =>
      show parseValue (fuel + 1) ('f' :: 'a' :: 'l' :: 's' :: 'e' :: rest)
        = some (vBool false, rest)
      rw [parseValue]
      simp [skipWs, isWs, stripPre]
    | true =>
      show parseValue (fuel + 1) ('t' :: 'r' :: 'u' :: 'e' :: rest) = some (vBool true, rest)
      rw [parseValue]
      simp [skipWs, isWs, stripPre]
  | vNum n =>
    rw [serVal]
    rcases lt_or_le n 0 with hn | hn
    · rw [intChars, if_pos hn, List.cons_append, parseValue]
      have hnd := headNotDigit_of_delimOk rest hdlm
      rw [skipWs_not_ws '-' _ (by decide)]
      simp [parseNum_natChars n.natAbs rest hnd, abs_of_neg hn]
    · rw [intChars, if_neg (by omega), parseValue]
      obtain ⟨d, ds, hd, hdig⟩ := natChars_head n.toNat
      obtain ⟨hn', ht, hf, hq, hm, hb, hk, _, _, _⟩ := digit_branch_facts d hdig
      rw [hd, List.cons_append, skipWs_not_ws d _ (notWs_of_isDigit d hdig)]
      split
      next heq => exact absurd heq (List.cons_ne_nil _ _)
      next c rest1 heq =>
        obtain ⟨rfl, rfl⟩ : d = c ∧ ds ++ rest = rest1 := by
          injection heq with a b
          exact ⟨a, b⟩
        rw [if_neg hn', if_neg ht, if_neg hf, if_neg hq, if_neg hm, if_neg hb, if_neg hk,
          if_pos hdig]
        rw [← List.cons_append, ← hd,
          parseNum_natChars n.toNat rest (headNotDigit_of_delimOk rest hdlm)]
        rw [Option.map_some']
        rw [show ((n.toNat : Int)) = n from by omega]
  | vStr s =>
    show parseValue (fuel + 1) ('"' :: (serStrBody s ++ rest)) = some (vStr s, rest)
    rw [parseValue]
    simp [skipWs, isWs, parseStrBody_serStrBody]
  | vObj fs =>
    cases fs with
    | nil =>
      show parseValue (fuel + 1) ('\x7b' :: '\x7d' :: rest) = some (vObj [], rest)
      rw [parseValue_brace, skipWs_not_ws '\x7d' _ (by decide)]
      rfl
    | cons kv fs' =>
      obtain ⟨k, v⟩ := kv
      exact pObj fuel ihM k v fs' rest hrep hsz
  | vArr es =>
    cases es with
    | nil =>
      show parseValue (fuel + 1) ('[' :: ']' :: rest) = some (vArr [], rest)
      rw [parseValue_bracket, skipWs_not_ws ']' _ (by decide)]
      rfl
    | cons v es' => exact pArr fuel ihE v es' rest hrep hsz

theorem parse_serVal (fuel : Nat) :
    (∀ v rest, jsonRep v = true → sizeJ v ≤ fuel → delimOk rest = true →
      parseValue fuel (serVal v ++ rest) = some (v, rest)) ∧
    (∀ fs rest, fs ≠ [] → repFields fs = true → sizeFields fs ≤ fuel →
      parseMembers fuel (serMembers fs ++ rest) = some (fs, rest)) ∧
    (∀ es rest, es ≠ [] → repElems es = true → sizeElems es ≤ fuel →
      parseElems fuel (serElems es ++ rest) = some (es, rest)) := by
  induction fuel with
  | zero =>
    refine ⟨fun v rest _ hs _ => absurd hs (by have := sizeJ_pos v; omega),
      fun fs rest hne _ hs => ?_, fun es rest hne _ hs => ?_⟩
    · cases fs with
      | nil => exact absurd rfl hne
      | cons kv fs' =>
        obtain ⟨k, v⟩ := kv
        rw [sizeFields] at hs
        exact absurd hs (by have := sizeJ_pos v; omega)
    · cases es with
      | nil => exact absurd rfl hne
      | cons v es' =>
        rw [sizeElems] at hs
        exact absurd hs (by have := sizeJ_pos v; omega)
  | succ fuel ih =>
    exact ⟨p1step fuel ih.2.1 ih.2.2, p2step fuel ih.1 ih.2.1, p3step fuel ih.1 ih.2.2⟩


/- Lemmas: fuel adequacy and the full JSON.parse/JSON.stringify round trip. -/

theorem one_le_serStrBody_length (s : List Char) : 1 ≤ (serStrBody s).length := by
  induction s with
  | nil => decide
  | cons c cs ih =>
    rw [serStrBody, List.length_append]
    omega

theorem two_le_serStr_length (s : List Char) : 2 ≤ (serStr s).length := by
  rw [serStr, List.length_cons]
  have := one_le_serStrBody_length s
  omega

theorem one_le_natChars_length (m : Nat) : 1 ≤ (natChars m).length := by
  obtain ⟨d, ds, hd, _⟩ := natChars_head m
  rw [hd, List.length_cons]
  omega

theorem one_le_intChars_length (n : Int) : 1 ≤ (intChars n).length := by
  rw [intChars]
  by_cases hn : n < 0
  · rw [if_pos hn, List.length_cons]
    omega
  · rw [if_neg hn]
    exact one_le_natChars_length n.toNat

mutual

theorem sizeJ_le (v : JSValue) (h : jsonRep v = true) : sizeJ v ≤ (serVal v).length := by
  cases v with
  | vUndef => exact absurd h (by decide)
  | vBuf bytes => simp [jsonRep] at h
  | vNull => decide
  | vBool b => cases b <;> decide
  | vNum n =>
    show (1 : Nat) ≤ (intChars n).length
    exact one_le_intChars_length n
  | vStr s =>
    show (1 : Nat) ≤ (serStr s).length
    have := two_le_serStr_length s
    omega
  | vObj fs =>
    rw [jsonRep, Bool.and_eq_true] at h
    rw [sizeJ, serVal, List.length_cons]
    have := (sizeFields_le fs h.2).1
    omega
  | vArr es =>
    rw [jsonRep] at h
    rw [sizeJ, serVal, List.length_cons]
    have := (sizeElems_le es h).1
    omega

theorem sizeFields_le (fs : List (List Char × JSValue)) (h : repFields fs = true) :
    sizeFields fs ≤ (serMembers fs).length ∧
      sizeFields fs + 1 ≤ (serMembersTail fs).length := by
  cases fs with
  | nil => exact ⟨by decide, by decide⟩
  | cons kv fs' =>
    obtain ⟨k, v⟩ := kv
    rw [repFields, Bool.and_eq_true] at h
    obtain ⟨hv, hfs'⟩ := h
    have h1 := sizeJ_le v hv
    have h2 := (sizeFields_le fs' hfs').2
    have h3 := two_le_serStr_length k
    constructor
    · rw [sizeFields, serMembers_cons k v fs' hv]
      simp only [List.length_append, List.length_cons]
      omega
    · rw [sizeFields, serMembersTail_cons k v fs' hv]
      simp only [List.length_cons, List.length_append]
      omega

theorem sizeElems_le (es : List JSValue) (h : repElems es = true) :
    sizeElems es ≤ (serElems es).length ∧
      sizeElems es + 1 ≤ (serElemsTail es).length := by
  cases es with
  | nil => exact ⟨by decide, by decide⟩
  | cons v es' =>
    rw [repElems, Bool.and_eq_true] at h
    obtain ⟨hv, hes'⟩ := h
    have h1 := sizeJ_le v hv
    have h2 := (sizeElems_le es' hes').2
    constructor
    · rw [sizeElems, serElems]
      simp only [List.length_append]
      omega
    · rw [sizeElems, serElemsTail]
      simp only [List.length_cons, List.length_append]
      omega

end

theorem jsonParse_serVal (v : JSValue) (h : jsonRep v = true) :
    jsonParse (serVal v) = some v := by
  rw [jsonParse]
  have h1 := (parse_serVal ((serVal v).length + 1)).1 v [] h
    (by have := sizeJ_le v h; omega) rfl
  rw [List.append_nil] at h1
  rw [h1]
  rfl


/- Lemmas: codec equations, association lists and pattern operations. -/

theorem toAMQPMessage_obj (fs : List (List Char × JSValue)) :
    toAMQPMessage (vObj fs) = .ok (serVal (vObj fs)) := rfl

theorem fromAMQPMessage_content (fl : MsgFields) (pr : Option MsgProps) (b : Bytes) :
    fromAMQPMessage ⟨fl, pr, some b⟩ =
      (match jsonParse b with
       | some v => v
       | none => vStr b) := rfl

theorem alookup_aset_self (l : List (String × α)) (k : String) (v : α) :
    alookup (aset l k v) k = some v := by
  induction l with
  | nil => simp [aset, alookup]
  | cons kv rest ih =>
    obtain ⟨k', v'⟩ := kv
    by_cases h : k' = k
    · subst h
      simp [aset, alookup]
    · simp [aset, alookup, h, ih]

theorem alookup_adel_self (l : List (String × α)) (k : String) :
    alookup (adel l k) k = none := by
  induction l with
  | nil => rfl
  | cons kv rest ih =>
    obtain ⟨k', v'⟩ := kv
    by_cases h : k' = k
    · subst h
      simpa [adel, alookup] using ih
    · simp only [adel, decide_not] at ih ⊢
      simp [List.filter, h, alookup, ih]

theorem rpcQueueName_ne_empty (a b : String) : a ++ "_rpc_queue_" ++ b ≠ "" := by
  intro h
  have hlen : (a ++ "_rpc_queue_" ++ b).length = 0 := by rw [h]; rfl
  rw [String.length_append, String.length_append] at hlen
  have : ("_rpc_queue_" : String).length = 11 := rfl
  omega

theorem addRpcQueue_reuse (st : BD) (q : String) (opts : QOpts)
    (h : alookup st.queues q = some (q ++ "_rpc_queue_" ++ st.pid)) :
    addRpcQueue st q opts = (st, [], .okQ (q ++ "_rpc_queue_" ++ st.pid)) := by
  rw [addRpcQueue]
  simp only [h]
  rw [if_pos ⟨rpcQueueName_ne_empty q st.pid, trivial⟩]

theorem send_no_error (st : BD) (q : String) (m : JSValue) (o : SendOpts) (e : JSErr) :
    (send st q m o).2 ≠ SendResult.calledFn (some e) := by
  rw [send]
  match toAMQPMessage m with
  | .error e' => simp
  | .ok d =>
    by_cases h : st.chOpen
    · simp [h]
    · simp [h]

theorem send_ok (st : BD) (q : String) (m : JSValue) (o : SendOpts) (d : Bytes)
    (hch : st.chOpen = true) (hm : toAMQPMessage m = .ok d) :
    send st q m o = ([sendToQueueE q d o], .calledFn none) := by
  rw [send, hm]
  simp [hch]

theorem countAck_replyFn (chOpen : Bool) (ctx : ReplyCtx) (r : JSValue) :
    ((replyFn chOpen ctx r).1.ackd = (ctx.ackd || decide (countP isAck (replyFn chOpen ctx r).2 = 1))) ∧
      countP isAck (replyFn chOpen ctx r).2 ≤ 1 ∧
      (ctx.ackd = true → (replyFn chOpen ctx r).1 = ctx ∧ countP isAck (replyFn chOpen ctx r).2 = 0) := by
  rw [replyFn]
  split
  · match toAMQPMessage r with
    | .error e => simp [countP]
    | .ok outData =>
      by_cases h : chOpen
      · simp only [h, if_true]
        by_cases ha : ctx.ackd
        · simp [ha, countP, isAck]
        · simp [ha, countP, isAck]
      · simp [h, countP]
  · simp [countP]

theorem replyIter_cons (chOpen : Bool) (ctx : ReplyCtx) (r : JSValue) (rs : List JSValue) :
    replyIter chOpen ctx (r :: rs) =
      ((replyIter chOpen (replyFn chOpen ctx r).1 rs).1,
       (replyFn chOpen ctx r).2 ++ (replyIter chOpen (replyFn chOpen ctx r).1 rs).2) := rfl

theorem countAck_replyIter (chOpen : Bool) (rs : List JSValue) : ∀ ctx : ReplyCtx,
    ((ctx.ackd = true → (replyIter chOpen ctx rs).1 = ctx ∧
        countP isAck (replyIter chOpen ctx rs).2 = 0) ∧
      countP isAck (replyIter chOpen ctx rs).2 ≤ 1) := by
  induction rs with
  | nil => intro ctx; exact ⟨fun _ => ⟨rfl, rfl⟩, by simp [replyIter, countP]⟩
  | cons r rs ih =>
    intro ctx
    have h1 := countAck_replyFn chOpen ctx r
    have h2 := ih (replyFn chOpen ctx r).1
    rw [replyIter_cons]
    constructor
    · intro ha
      obtain ⟨hctx, hcnt⟩ := h1.2.2 ha
      rw [hctx] at h2 ⊢
      obtain ⟨hiter, hcnt2⟩ := h2.1 ha
      simp only [countP, List.filter_append, List.length_append] at *
      constructor
      · exact hiter
      · omega
    · by_cases ha : ctx.ackd
      · obtain ⟨hctx, hcnt⟩ := h1.2.2 ha
        rw [hctx] at h2 ⊢
        obtain ⟨_, hcnt2⟩ := h2.1 ha
        simp only [countP, List.filter_append, List.length_append] at *
        omega
      · by_cases hone : countP isAck (replyFn chOpen ctx r).2 = 1
        · have hackd : (replyFn chOpen ctx r).1.ackd = true := by
            rw [h1.1]
            simp [hone, ha]
          obtain ⟨_, hcnt2⟩ := h2.1 hackd
          simp only [countP, List.filter_append, List.length_append] at *
          omega
        · have hle := h1.2.1
          have hle2 := h2.2
          simp only [countP, List.filter_append, List.length_append] at *
          omega


/- Claim theorems: each settles one claim of the specification. -/

/-- C2: on a client whose RPC reply queue is already set up but whose channel
has closed, the publish inside rpc throws; the source's rollback branch never
runs, so the freshly registered correlation entry stays in the table and the
error never reaches the caller's callback.  This evaluates the model at the
failing input of the code_bug verdict. -/
theorem rpc_publish_throw_leaves_entry :
    rpcFailRun.2.2 = some JSErr.channelClosed ∧
    alookup rpcFailRun.1.rpcCB "uuid-0" = some ⟨7, true⟩ ∧
    countP (isErrCb 7) rpcFailRun.2.1 = 0 :=
  ⟨by decide, by decide, by decide⟩

/-- C3 (counterexample to buffer pass-through): a Buffer input is not passed
through unchanged; `copy` flattens it into a plain index-keyed object before
the `Buffer.isBuffer` test runs, so its bytes are JSON-serialized as an
object of indices. -/
theorem toAMQPMessage_buffer_not_passthrough :
    toAMQPMessage (vBuf "hi".data) = .ok ("\x7b\"0\":104,\"1\":105\x7d".data) ∧
    toAMQPMessage (vBuf "hi".data) ≠ .ok ("hi".data) := by
  have h1 : toAMQPMessage (vBuf "hi".data) = .ok ("\x7b\"0\":104,\"1\":105\x7d".data) := by
    simp only [show "hi".data = ['h', 'i'] from rfl]
    rw [toAMQPMessage]
    simp [copy, bufObjFields, natChars, digitChar, bind, Except.bind]
    simp [typeofJS, isBuffer, jsonStringify, serVal, serMembers, serMembersTail,
      serStr, serStrBody, escChar, intChars, natChars, digitChar]
  refine ⟨h1, ?_⟩
  rw [h1]
  intro hcontra
  injection hcontra with hh
  have hlen := congrArg List.length hh
  rw [show ("\x7b\"0\":104,\"1\":105\x7d".data).length = 17 from rfl,
    show ("hi".data).length = 2 from rfl] at hlen
  exact absurd hlen (by omega)

/-- C4: for every structured value whose fields are JSON-representable,
decoding a message whose content is the encoding of the value yields the
value back (deep equality holds because the two sides are equal). -/
theorem encode_decode_roundtrip (fs : List (List Char × JSValue))
    (h : jsonRep (vObj fs) = true) (fl : MsgFields) (pr : Option MsgProps) :
    ∃ b, toAMQPMessage (vObj fs) = .ok b ∧
      fromAMQPMessage ⟨fl, pr, some b⟩ = vObj fs := by
  refine ⟨serVal (vObj fs), toAMQPMessage_obj fs, ?_⟩
  rw [fromAMQPMessage_content, jsonParse_serVal (vObj fs) h]

/-- C4 witness: the round trip evaluated on a concrete object. -/
theorem encode_decode_roundtrip_witness :
    jsonRep (vObj [("a".data, vNum 1)]) = true ∧
    (∃ b, toAMQPMessage (vObj [("a".data, vNum 1)]) = .ok b ∧
      fromAMQPMessage ⟨⟨"", ""⟩, none, some b⟩ = vObj [("a".data, vNum 1)]) :=
  ⟨by decide, encode_decode_roundtrip [("a".data, vNum 1)] (by decide) ⟨"", ""⟩ none⟩

/-- C7: decoding never fails observably: a payload whose text is not valid
JSON decodes to that raw text verbatim, and a message without a payload
decodes to a shallow copy of the message's fields. -/
theorem decode_never_fails_fallbacks :
    (∀ fl pr b, jsonParse b = none → fromAMQPMessage ⟨fl, pr, some b⟩ = vStr b) ∧
    (∀ fl pr, fromAMQPMessage ⟨fl, pr, none⟩ = vObj (msgFields ⟨fl, pr, none⟩)) := by
  constructor
  · intro fl pr b h
    rw [fromAMQPMessage_content, h]
  · intro fl pr
    rfl

/-- C7 witness: decode of the non-JSON text hello returns it verbatim, and
decode of a payloadless message is the field copy. -/
theorem decode_never_fails_fallbacks_witness :
    jsonParse "hello".data = none ∧
    fromAMQPMessage ⟨⟨"", ""⟩, none, some "hello".data⟩ = vStr "hello".data ∧
    fromAMQPMessage ⟨⟨"", ""⟩, none, none⟩ = vObj (msgFields ⟨⟨"", ""⟩, none, none⟩) :=
  ⟨by rfl, decode_never_fails_fallbacks.1 ⟨"", ""⟩ none "hello".data (by rfl),
    decode_never_fails_fallbacks.2 ⟨"", ""⟩ none⟩

/-- C8: addWorkerQueue declares the queue with durable set to true even when
the caller passed durable:false — the guard `typeof options !== 'boolean'`
never inspects `options.durable`, so the caller's choice is overwritten.
This evaluates the model at the failing input of the code_bug verdict. -/
theorem addWorkerQueue_overwrites_durable :
    workerDeclRun.2.1 = [assertQueueE "jobs" ⟨some true, none⟩] ∧
    workerDeclRun.2.1 ≠ [assertQueueE "jobs" ⟨some false, none⟩] := by
  have h1 : workerDeclRun.2.1 = [assertQueueE "jobs" ⟨some true, none⟩] := rfl
  refine ⟨h1, ?_⟩
  rw [h1]
  simp

/-- C10 (counterexample): on a closed channel, sendToQueue throws and the
completion callback of send is invoked zero times, refuting the claim's
"exactly once". -/
theorem send_closed_channel_no_callback :
    sendFailRun.2 = SendResult.threw JSErr.channelClosed ∧
    sendFailRun.2 ≠ SendResult.calledFn none :=
  ⟨by decide, by decide⟩

/-- C10 (amended): the send completion callback is never invoked with an
error argument and is invoked exactly once whenever encoding and the publish
call return normally, so the rollback branch of rpc's send callback never
runs: the correlation entry registered by rpc is still present after rpc
returns, whatever the publish outcome. -/
theorem send_callback_no_error_rpc_rollback_unreachable (st : BD) (q : String)
    (m : JSValue) (o : SendOpts) (cb : Nat) :
    (∀ e, (send st q m o).2 ≠ SendResult.calledFn (some e)) ∧
    (st.chOpen = true → ∀ d, toAMQPMessage m = .ok d →
      send st q m o = ([sendToQueueE q d o], .calledFn none)) ∧
    (alookup st.queues q = some (q ++ "_rpc_queue_" ++ st.pid) →
      alookup (rpc st q m o cb).1.rpcCB (uuidString st.nextUuid) =
        some ⟨cb, o.autoDeleteCallback.getD true⟩) := by
  refine ⟨fun e => send_no_error st q m o e,
    fun hch d hm => send_ok st q m o d hch hm, fun hq => ?_⟩
  rw [rpc, addRpcQueue_reuse st q {} hq]
  rcases hm : toAMQPMessage m with e | d
  · simp [send, hm, alookup_aset_self]
  · cases hch : st.chOpen
    · simp [send, hm, hch, alookup_aset_self]
    · simp [send, hm, hch, alookup_aset_self]

/-- C10 witness: the amended theorem applied on an open channel with the
reply queue set up. -/
theorem send_callback_no_error_witness :
    ((⟨"1", true, [("q", "q_rpc_queue_1")], [], [], 0⟩ : BD).chOpen = true) ∧
    toAMQPMessage (vStr ['m']) = .ok ['m'] ∧
    alookup (⟨"1", true, [("q", "q_rpc_queue_1")], [], [], 0⟩ : BD).queues "q" =
      some ("q" ++ "_rpc_queue_" ++ "1") ∧
    send ⟨"1", true, [("q", "q_rpc_queue_1")], [], [], 0⟩ "q" (vStr ['m']) {} =
      ([sendToQueueE "q" ['m'] {}], .calledFn none) ∧
    alookup (rpc ⟨"1", true, [("q", "q_rpc_queue_1")], [], [], 0⟩ "q" (vStr ['m']) {} 7).1.rpcCB
      (uuidString 0) = some ⟨7, true⟩ :=
  ⟨rfl, rfl, by decide,
    (send_callback_no_error_rpc_rollback_unreachable
      ⟨"1", true, [("q", "q_rpc_queue_1")], [], [], 0⟩ "q" (vStr ['m']) {} 7).2.1
      rfl ['m'] rfl,
    (send_callback_no_error_rpc_rollback_unreachable
      ⟨"1", true, [("q", "q_rpc_queue_1")], [], [], 0⟩ "q" (vStr ['m']) {} 7).2.2
      (by decide)⟩

/-- C9: the private RPC reply queue is named deterministically from the
logical queue name and the process identity; a fresh setup declares and
consumes exactly that queue and caches it, and once the cached entry matches
that name, addRpcQueue returns it with no channel operation and an rpc send
issues no queue declaration and no new consumer. -/
theorem addRpcQueue_deterministic_name_and_reuse (st : BD) (q : String) (opts : QOpts)
    (o : SendOpts) (m : JSValue) (cb : Nat) :
    (st.chOpen = true → q ≠ "" → alookup st.queues q = none →
      alookup st.queues (q ++ "_rpc_queue_" ++ st.pid) = none →
      addRpcQueue st q opts =
        ({ st with queues := aset st.queues q (q ++ "_rpc_queue_" ++ st.pid) },
         [assertQueueE (q ++ "_rpc_queue_" ++ st.pid)
            (if opts.exclusive = none then { opts with exclusive := some true } else opts),
          consumeE (q ++ "_rpc_queue_" ++ st.pid) true],
         .okQ (q ++ "_rpc_queue_" ++ st.pid))) ∧
    (alookup st.queues q = some (q ++ "_rpc_queue_" ++ st.pid) →
      addRpcQueue st q opts = (st, [], .okQ (q ++ "_rpc_queue_" ++ st.pid))) ∧
    (alookup st.queues q = some (q ++ "_rpc_queue_" ++ st.pid) →
      countP isAssertQueue (rpc st q m o cb).2.1 = 0 ∧
      countP isConsume (rpc st q m o cb).2.1 = 0 ∧
      (rpc st q m o cb).1.queues = st.queues) := by
  refine ⟨fun hch hq hnone hnone2 => ?_, fun hq => addRpcQueue_reuse st q opts hq,
    fun hq => ?_⟩
  · rw [addRpcQueue]
    simp only [hnone]
    rw [addRpcSetup]
    simp [hch, hq, hnone2]
  · rw [rpc, addRpcQueue_reuse st q {} hq]
    rcases hm : toAMQPMessage m with e | d
    · simp [send, hm, countP, isAssertQueue, isConsume]
    · cases hch : st.chOpen
      · simp [send, hm, hch, countP, isAssertQueue, isConsume]
      · simp [send, hm, hch, countP, isAssertQueue, isConsume]

/-- C9 witness: fresh setup then reuse on a concrete client. -/
theorem addRpcQueue_reuse_witness :
    ((⟨"1", true, [], [], [], 0⟩ : BD).chOpen = true ∧ ("echo" : String) ≠ "" ∧
      alookup (⟨"1", true, [], [], [], 0⟩ : BD).queues "echo" = none ∧
      alookup (⟨"1", true, [], [], [], 0⟩ : BD).queues ("echo" ++ "_rpc_queue_" ++ "1") = none) ∧
    addRpcQueue ⟨"1", true, [], [], [], 0⟩ "echo" {} =
      ({ (⟨"1", true, [], [], [], 0⟩ : BD) with
          queues := aset [] "echo" ("echo" ++ "_rpc_queue_" ++ "1") },
       [assertQueueE ("echo" ++ "_rpc_queue_" ++ "1") ⟨none, some true⟩,
        consumeE ("echo" ++ "_rpc_queue_" ++ "1") true],
       .okQ ("echo" ++ "_rpc_queue_" ++ "1")) ∧
    (alookup (⟨"1", true, [("echo", "echo_rpc_queue_1")], [], [], 0⟩ : BD).queues "echo" =
      some ("echo" ++ "_rpc_queue_" ++ "1") ∧
     addRpcQueue ⟨"1", true, [("echo", "echo_rpc_queue_1")], [], [], 0⟩ "echo" {} =
      (⟨"1", true, [("echo", "echo_rpc_queue_1")], [], [], 0⟩, [],
        .okQ ("echo" ++ "_rpc_queue_" ++ "1"))) := by
  refine ⟨⟨rfl, by decide, rfl, rfl⟩, ?_, by decide,
    (addRpcQueue_deterministic_name_and_reuse
      ⟨"1", true, [("echo", "echo_rpc_queue_1")], [], [], 0⟩ "echo" {} {} (vNum 0) 0).2.1
      (by decide)⟩
  have h := (addRpcQueue_deterministic_name_and_reuse
    ⟨"1", true, [], [], [], 0⟩ "echo" {} {} (vNum 0) 0).1 rfl (by decide) rfl rfl
  simpa using h

/-- C1 (counterexample): on a fresh client, two pubsub subscriptions to the
same exchange issue exactly one queue binding but two consumer subscriptions
on the bound queue, refuting "exactly one active consumer". -/
theorem pubsub_two_subscribes_two_consumers :
    countP (isBindTo "ex") (pubsubRun1.2 ++ pubsubRun2.2) = 1 ∧
    countP (isConsumeOn "ex_queue_1") (pubsubRun1.2 ++ pubsubRun2.2) = 2 ∧
    ¬ countP (isConsumeOn "ex_queue_1") (pubsubRun1.2 ++ pubsubRun2.2) = 1 :=
  ⟨by decide, by decide, by decide⟩

/-- C1 (amended): two subscriptions for the same exchange bind exactly one
queue (the second call reuses the recorded binding), but each call starts a
consumer, so two consumer subscriptions are active on that queue. -/
theorem onPubsub_twice_one_binding_two_consumers (st : BD) (ex : String)
    (hch : st.chOpen = true) (hb : alookup st.exBindings ex = none) :
    countP (isBindTo ex) ((onPubsub st ex).2 ++ (onPubsub (onPubsub st ex).1 ex).2) = 1 ∧
    alookup (onPubsub (onPubsub st ex).1 ex).1.exBindings ex =
      some (ex ++ "_queue_" ++ st.pid) ∧
    countP (isConsumeOn (ex ++ "_queue_" ++ st.pid))
      ((onPubsub st ex).2 ++ (onPubsub (onPubsub st ex).1 ex).2) = 2 := by
  have h1 : onPubsub st ex =
      ({ st with exBindings := aset st.exBindings ex (ex ++ "_queue_" ++ st.pid) },
       [assertExchangeE ex "fanout" false,
        assertQueueE (ex ++ "_queue_" ++ st.pid) ⟨none, some true⟩,
        bindQueueE (ex ++ "_queue_" ++ st.pid) ex,
        consumeE (ex ++ "_queue_" ++ st.pid) true]) := by
    rw [onPubsub]
    simp [hch, hb]
  have h2 : onPubsub (onPubsub st ex).1 ex =
      ((onPubsub st ex).1,
       [assertExchangeE ex "fanout" false,
        assertQueueE (ex ++ "_queue_" ++ st.pid) ⟨none, some true⟩,
        consumeE (ex ++ "_queue_" ++ st.pid) true]) := by
    rw [h1, onPubsub]
    simp [hch, alookup_aset_self]
  rw [h2, h1]
  refine ⟨?_, ?_, ?_⟩
  · simp [countP, isBindTo, List.filter]
  · simp [alookup_aset_self]
  · simp [countP, isConsumeOn, List.filter]

/-- C1 witness: the amended theorem on a fresh concrete client. -/
theorem onPubsub_twice_witness :
    ((⟨"1", true, [], [], [], 0⟩ : BD).chOpen = true ∧
      alookup (⟨"1", true, [], [], [], 0⟩ : BD).exBindings "ex" = none) ∧
    (countP (isBindTo "ex")
        ((onPubsub ⟨"1", true, [], [], [], 0⟩ "ex").2 ++
          (onPubsub (onPubsub ⟨"1", true, [], [], [], 0⟩ "ex").1 "ex").2) = 1 ∧
      alookup (onPubsub (onPubsub ⟨"1", true, [], [], [], 0⟩ "ex").1 "ex").1.exBindings "ex" =
        some ("ex" ++ "_queue_" ++ "1") ∧
      countP (isConsumeOn ("ex" ++ "_queue_" ++ "1"))
        ((onPubsub ⟨"1", true, [], [], [], 0⟩ "ex").2 ++
          (onPubsub (onPubsub ⟨"1", true, [], [], [], 0⟩ "ex").1 "ex").2) = 2) :=
  ⟨⟨rfl, rfl⟩, onPubsub_twice_one_binding_two_consumers ⟨"1", true, [], [], [], 0⟩ "ex" rfl rfl⟩

/-- C5: dispatching a reply whose truthy correlation id has a registered
entry with auto-delete invokes the callback with the decoded reply and
deletes the entry; a second reply with the same id is then an unknown-id
no-op, and any dispatch whose id has no entry never changes the table. -/
theorem rpcHandler_dispatch_deletes_then_unknown (st : BD) (msg : AMQPMsg)
    (p : MsgProps) (e : RpcEntry) (hp : msg.properties = some p)
    (hne : p.correlationId ≠ "") (he : alookup st.rpcCB p.correlationId = some e)
    (had : e.autoDelete = true) :
    rpcHandler st msg = ({ st with rpcCB := adel st.rpcCB p.correlationId },
      [rpcReplyE e.cbId (fromAMQPMessage msg)]) ∧
    alookup (rpcHandler st msg).1.rpcCB p.correlationId = none ∧
    (∀ msg2 p2, msg2.properties = some p2 → p2.correlationId = p.correlationId →
      rpcHandler (rpcHandler st msg).1 msg2 =
        ((rpcHandler st msg).1, [unknownCorrE p.correlationId])) ∧
    (∀ st0 msg0, alookup st0.rpcCB (corrOf msg0) = none →
      (rpcHandler st0 msg0).1 = st0) := by
  have hcorr : corrOf msg = p.correlationId := by
    rw [corrOf, hp]
  have h1 : rpcHandler st msg = ({ st with rpcCB := adel st.rpcCB p.correlationId },
      [rpcReplyE e.cbId (fromAMQPMessage msg)]) := by
    rw [rpcHandler]
    simp [hcorr, he, hne, had]
  refine ⟨h1, ?_, ?_, ?_⟩
  · rw [h1]
    exact alookup_adel_self st.rpcCB p.correlationId
  · intro msg2 p2 hp2 hc2
    have hcorr2 : corrOf msg2 = p.correlationId := by
      rw [corrOf, hp2]
      simpa using hc2
    rw [h1, rpcHandler]
    simp [hcorr2, alookup_adel_self, hne]
  · intro st0 msg0 h0
    rw [rpcHandler]
    simp only [h0]
    by_cases hz : corrOf msg0 ≠ "" <;> simp [hz]

/-- C5 witness: a registered entry on a concrete client, dispatched twice. -/
theorem rpcHandler_dispatch_witness :
    (replyMsg.properties = some ⟨"c", ""⟩ ∧ ("c" : String) ≠ "" ∧
      alookup [("c", (⟨7, true⟩ : RpcEntry))] "c" = some ⟨7, true⟩) ∧
    rpcHandler ⟨"1", true, [], [("c", ⟨7, true⟩)], [], 0⟩ replyMsg =
      ({ (⟨"1", true, [], [("c", ⟨7, true⟩)], [], 0⟩ : BD) with
          rpcCB := adel [("c", ⟨7, true⟩)] "c" },
        [rpcReplyE 7 (fromAMQPMessage replyMsg)]) ∧
    alookup (rpcHandler ⟨"1", true, [], [("c", ⟨7, true⟩)], [], 0⟩ replyMsg).1.rpcCB "c" =
      none :=
  ⟨⟨rfl, by decide, rfl⟩,
    (rpcHandler_dispatch_deletes_then_unknown ⟨"1", true, [], [("c", ⟨7, true⟩)], [], 0⟩
      replyMsg ⟨"c", ""⟩ ⟨7, true⟩ rfl (by decide) rfl rfl).1,
    (rpcHandler_dispatch_deletes_then_unknown ⟨"1", true, [], [("c", ⟨7, true⟩)], [], 0⟩
      replyMsg ⟨"c", ""⟩ ⟨7, true⟩ rfl (by decide) rfl rfl).2.1⟩

/-- C6: for an RPC-server request, the acknowledgment is issued at most once
no matter how often the handler calls replyFn; and a request lacking a reply
address or correlation id is still decoded and handed to the handler while
its replyFn performs no channel operation at all. -/
theorem onRpc_ack_at_most_once_and_noop_reply (msg : AMQPMsg) (p : MsgProps)
    (hid : Nat) (chOpen : Bool) (hp : msg.properties = some p) :
    (∀ ctx tr, onRpcReceive msg hid = .ok (ctx, tr) →
      ∀ rs, countP isAck (replyIter chOpen ctx rs).2 ≤ 1) ∧
    (p.replyTo = "" ∨ p.correlationId = "" →
      onRpcReceive msg hid = .ok (⟨p.replyTo, p.correlationId, p.replyTo, false⟩,
        [handlerE hid (fromAMQPMessage msg)]) ∧
      ∀ resp, replyFn chOpen ⟨p.replyTo, p.correlationId, p.replyTo, false⟩ resp =
        (⟨p.replyTo, p.correlationId, p.replyTo, false⟩, [])) := by
  constructor
  · intro ctx tr _ rs
    exact (countAck_replyIter chOpen rs ctx).2
  · intro hzero
    constructor
    · rw [onRpcReceive, hp]
    · intro resp
      rw [replyFn]
      rcases hzero with h | h <;> simp [h]

/-- C6 witness: a request without a reply address, delivered and replied to
repeatedly. -/
theorem onRpc_ack_witness :
    noReplyMsg.properties = some ⟨"c", ""⟩ ∧
    countP isAck (replyIter true ⟨"", "c", "", false⟩ [vNum 1, vNum 2]).2 ≤ 1 ∧
    onRpcReceive noReplyMsg 3 = .ok (⟨"", "c", "", false⟩,
      [handlerE 3 (fromAMQPMessage noReplyMsg)]) ∧
    replyFn true ⟨"", "c", "", false⟩ (vNum 1) = (⟨"", "c", "", false⟩, []) :=
  ⟨rfl,
    (onRpc_ack_at_most_once_and_noop_reply noReplyMsg ⟨"c", ""⟩ 3 true rfl).1
      ⟨"", "c", "", false⟩ [handlerE 3 (fromAMQPMessage noReplyMsg)] rfl [vNum 1, vNum 2],
    ((onRpc_ack_at_most_once_and_noop_reply noReplyMsg ⟨"c", ""⟩ 3 true rfl).2
      (Or.inl rfl)).1,
    ((onRpc_ack_at_most_once_and_noop_reply noReplyMsg ⟨"c", ""⟩ 3 true rfl).2
      (Or.inl rfl)).2 (vNum 1)⟩


end Bunnydo
